import Mathlib

/-!
Shallow embedding of `src/env/StockTradingEnvironment.py`.

The environment is a bounded arithmetic state machine.  Python float
arithmetic is embedded as exact rational arithmetic (the spec describes the
quantities as reals).  Python division by zero raises `ZeroDivisionError`, so
every operation of the source that divides is embedded as an `Except` value
whose error case records the exception; Lean's total division (x / 0 = 0) is
never relied upon.

The two sources of randomness in the environment — the episode start index
drawn by `reset` (`random.randint(0, N - 6)`, line 71) and the execution
price drawn by `_take_action` (`random.uniform(open, close)`, line 120) —
are embedded as explicit parameters; the range the draw comes from becomes a
hypothesis where a claim depends on it.
-/

/-! ### Module-level constants (lines 23-29 of the source) -/

def MAX_ACCOUNT_BALANCE : ℚ := 2147483647

def MAX_NUM_SHARES : ℚ := 2147483647

def MAX_SHARE_PRICE : ℚ := 5000

def MAX_STEPS : ℚ := 20000

def INITIAL_ACCOUNT_BALANCE : ℚ := 10000

/-! ### Data model -/

/-- One daily record of the price series: the dataframe columns
`Open`, `High`, `Low`, `Close`, `Volume` used by the environment. -/
structure PriceRow where
  Open : ℚ
  High : ℚ
  Low : ℚ
  Close : ℚ
  Volume : ℚ
deriving DecidableEq

/-- The mutable episode state of `StockTradingEnvironment`: the attributes
assigned by `reset` (lines 62-71) and mutated by `step`/`_take_action`. -/
structure EnvState where
  balance : ℚ
  net_worth : ℚ
  max_net_worth : ℚ
  shares_held : ℚ
  cost_basis : ℚ
  total_shares_sold : ℚ
  total_sales_value : ℚ
  current_step : ℕ
deriving DecidableEq

/-- An action: `action[0]` is the action type (buy below 1, sell in [1,2),
hold otherwise), `action[1]` the amount fraction. -/
structure StockAction where
  action_type : ℚ
  amount : ℚ
deriving DecidableEq

/-- The `reset` method, lines 62-71: reinitialize every account attribute and
set `current_step` to the randomly drawn start index (here a parameter). -/
def reset (start_step : ℕ) : EnvState :=
  { balance := INITIAL_ACCOUNT_BALANCE
    net_worth := INITIAL_ACCOUNT_BALANCE
    max_net_worth := INITIAL_ACCOUNT_BALANCE
    shares_held := 0
    cost_basis := 0
    total_shares_sold := 0
    total_sales_value := 0
    current_step := start_step }

/-- The branch of `_take_action` selected by the action type, lines 122-141.
Buy (type < 1) divides by `current_price` (line 127) and by
`shares_held + shares_bought` (line 133); in Python each division raises
`ZeroDivisionError` when its denominator is zero, embedded as the error
case.  Sell (1 ≤ type < 2) and hold (type ≥ 2) never divide. -/
def trade_branch (s : EnvState) (a : StockAction) (current_price : ℚ) :
    Except String EnvState :=
  if a.action_type < 1 then
    if current_price = 0 then .error "ZeroDivisionError: float division by zero"
    else
      let total_possible := s.balance / current_price
      let shares_bought := total_possible * a.amount
      let prev_cost := s.cost_basis * s.shares_held
      let additional_cost := shares_bought * current_price
      if s.shares_held + shares_bought = 0 then
        .error "ZeroDivisionError: float division by zero"
      else
        .ok { s with
          balance := s.balance - additional_cost
          cost_basis := (prev_cost + additional_cost) / (s.shares_held + shares_bought)
          shares_held := s.shares_held + shares_bought }
  else if a.action_type < 2 then
    let shares_sold := s.shares_held * a.amount
    .ok { s with
      balance := s.balance + shares_sold * current_price
      shares_held := s.shares_held - shares_sold
      total_shares_sold := s.total_shares_sold + shares_sold
      total_sales_value := s.total_sales_value + shares_sold * current_price }
  else
    .ok s

/-- The unconditional tail of `_take_action`, lines 143-149: recompute
`net_worth`, raise `max_net_worth` if exceeded, and zero `cost_basis` when no
shares are held. -/
def take_action_post (s : EnvState) (current_price : ℚ) : EnvState :=
  let net_worth := s.balance + s.shares_held * current_price
  { s with
    net_worth := net_worth
    max_net_worth :=
      if s.max_net_worth < net_worth then net_worth else s.max_net_worth
    cost_basis := if s.shares_held = 0 then 0 else s.cost_basis }

/-- The `_take_action` method, lines 118-149, with the randomly drawn
execution price as a parameter: run the selected branch, then the
unconditional tail. -/
def take_action (s : EnvState) (a : StockAction) (current_price : ℚ) :
    Except String EnvState :=
  (trade_branch s a current_price).map fun s1 => take_action_post s1 current_price

/-- The `current_step` advance of `step`, lines 104-107: increment, then wrap
to 0 when the incremented index exceeds N - 6 (N the price series length). -/
def wrap_step (df_len : ℕ) (cs : ℕ) : ℕ :=
  if df_len - 6 < cs + 1 then 0 else cs + 1

/-- The state-transition part of the `step` method, lines 100-112: execute
the action, advance (and possibly wrap) `current_step`, and compute the
returned reward and done flag.  The source's `step` additionally builds an
observation via `_next_observation` (line 114), embedded separately below as
`next_observation`, where its construction is analysed. -/
def step (df_len : ℕ) (s : EnvState) (a : StockAction) (current_price : ℚ) :
    Except String (EnvState × ℚ × Bool) :=
  (take_action s a current_price).map fun s1 =>
    let s2 := { s1 with current_step := wrap_step df_len s1.current_step }
    let delay_modifier := (s2.current_step : ℚ) / MAX_STEPS
    let reward := s2.balance * delay_modifier
    let done := decide (s2.net_worth ≤ 0)
    (s2, reward, done)

/-! ### The observation -/

/-- A Python object appearing as an element of the frame built by
`_next_observation`: a numpy array (one scaled data row) or a float. -/
inductive PyObj where
  | float (q : ℚ)
  | ndarray (v : List ℚ)
deriving DecidableEq

/-- Whether a Python value is hashable.  A numpy array is not: its class
sets its hash slot to None, so hashing one raises
`TypeError: unhashable type: numpy.ndarray`. -/
def PyObj.hashable : PyObj → Bool
  | .float _ => true
  | .ndarray _ => false

/-- A Python set literal evaluates by hashing each element to insert it into
a set; the first unhashable element raises `TypeError`. -/
def pySetLiteral (xs : List PyObj) : Except String (List PyObj) :=
  if xs.all PyObj.hashable then .ok xs
  else .error "TypeError: unhashable type: numpy.ndarray"

/-- The `_next_observation` method, lines 77-97.  Line 80 writes
`frame = np.array(...)` whose argument is a Python SET literal (braces, not
brackets) holding the five scaled data rows, each a numpy array; building
that set hashes the arrays and raises `TypeError`, so the method never
returns.  The embedding performs the five scaling divisions of lines 80-84
on the 6-row window, then attempts the set construction, then (were it
reached) appends the scaled account row of lines 88-95. -/
def next_observation (df : List PriceRow) (s : EnvState) :
    Except String (List (List ℚ)) :=
  (pySetLiteral
      [.ndarray (((df.drop s.current_step).take 6).map fun r => r.Open / MAX_SHARE_PRICE),
       .ndarray (((df.drop s.current_step).take 6).map fun r => r.High / MAX_SHARE_PRICE),
       .ndarray (((df.drop s.current_step).take 6).map fun r => r.Low / MAX_SHARE_PRICE),
       .ndarray (((df.drop s.current_step).take 6).map fun r => r.Close / MAX_SHARE_PRICE),
       .ndarray (((df.drop s.current_step).take 6).map fun r => r.Volume / MAX_SHARE_PRICE)]).map
    fun frame =>
      (frame.map fun o => match o with | .ndarray v => v | .float q => [q]) ++
        [[s.balance / MAX_ACCOUNT_BALANCE,
          s.max_net_worth / MAX_ACCOUNT_BALANCE,
          s.shares_held / MAX_NUM_SHARES,
          s.cost_basis / MAX_SHARE_PRICE,
          s.total_shares_sold / MAX_NUM_SHARES,
          s.total_sales_value / (MAX_NUM_SHARES * MAX_SHARE_PRICE)]]

/-! ### Reachability -/

/-- States reachable by `reset` followed by any sequence of completed `step`
calls on a price series of length `df_len`.  The `init` rule records the
range of the start index drawn by `random.randint(0, N - 6)` on line 71; the
`next` rule allows any action and any execution price. -/
inductive Reachable (df_len : ℕ) : EnvState → Prop where
  | init (start_step : ℕ) (h : start_step ≤ df_len - 6) :
      Reachable df_len (reset start_step)
  | next (s s1 : EnvState) (a : StockAction) (p r : ℚ) (d : Bool)
      (hs : Reachable df_len s) (h : step df_len s a p = .ok (s1, r, d)) :
      Reachable df_len s1

/-! ### Helper lemmas -/

theorem except_map_ok {α β : Type} {f : α → β} {x : Except String α} {y : β}
    (h : x.map f = .ok y) : ∃ z, x = .ok z ∧ y = f z := by
  cases x with
  | error e => simp [Except.map] at h
  | ok z => exact ⟨z, rfl, by simpa [Except.map] using h.symm⟩

theorem take_action_ok {s : EnvState} {a : StockAction} {p : ℚ} {s2 : EnvState}
    (h : take_action s a p = .ok s2) :
    ∃ s1, trade_branch s a p = .ok s1 ∧ s2 = take_action_post s1 p :=
  except_map_ok h

theorem step_ok {N : ℕ} {s : EnvState} {a : StockAction} {p : ℚ}
    {s1 : EnvState} {r : ℚ} {d : Bool} (h : step N s a p = .ok (s1, r, d)) :
    ∃ s0, take_action s a p = .ok s0 ∧
      s1 = { s0 with current_step := wrap_step N s0.current_step } ∧
      r = s0.balance * ((wrap_step N s0.current_step : ℚ) / MAX_STEPS) ∧
      d = decide (s0.net_worth ≤ 0) := by
  obtain ⟨s0, hx, hy⟩ := except_map_ok h
  refine ⟨s0, hx, ?_⟩
  simp only [Prod.mk.injEq] at hy
  obtain ⟨h1, h2, h3⟩ := hy
  exact ⟨h1, h2, h3⟩

theorem trade_branch_fields {s : EnvState} {a : StockAction} {p : ℚ} {s1 : EnvState}
    (h : trade_branch s a p = .ok s1) :
    s1.max_net_worth = s.max_net_worth ∧ s1.net_worth = s.net_worth ∧
      s1.current_step = s.current_step := by
  simp only [trade_branch] at h
  split at h
  · split at h
    · simp at h
    · split at h
      · simp at h
      · simp only [Except.ok.injEq] at h
        subst h
        exact ⟨rfl, rfl, rfl⟩
  · split at h
    · simp only [Except.ok.injEq] at h
      subst h
      exact ⟨rfl, rfl, rfl⟩
    · simp only [Except.ok.injEq] at h
      subst h
      exact ⟨rfl, rfl, rfl⟩

theorem take_action_post_balance (s : EnvState) (p : ℚ) :
    (take_action_post s p).balance = s.balance := rfl

theorem take_action_post_shares (s : EnvState) (p : ℚ) :
    (take_action_post s p).shares_held = s.shares_held := rfl

theorem take_action_post_cs (s : EnvState) (p : ℚ) :
    (take_action_post s p).current_step = s.current_step := rfl

theorem take_action_post_nw (s : EnvState) (p : ℚ) :
    (take_action_post s p).net_worth = s.balance + s.shares_held * p := rfl

theorem take_action_post_cb (s : EnvState) (p : ℚ) :
    (take_action_post s p).cost_basis =
      if s.shares_held = 0 then 0 else s.cost_basis := rfl

theorem take_action_post_max_mono (s : EnvState) (p : ℚ) :
    s.max_net_worth ≤ (take_action_post s p).max_net_worth := by
  show s.max_net_worth ≤ if s.max_net_worth < s.balance + s.shares_held * p
    then s.balance + s.shares_held * p else s.max_net_worth
  split
  · exact le_of_lt (by assumption)
  · exact le_refl _

/-- Concrete evaluation of one completed step: a hold action (type 5/2) at
price 1 from the freshly reset state on a 6-row series maps the state to
itself, with reward 0 and done false. -/
theorem demo_hold_step :
    step 6 (reset 0) ⟨5/2, 0⟩ 1 = .ok (reset 0, 0, false) := by
  norm_num [step, take_action, trade_branch, take_action_post, wrap_step, reset,
    Except.map, MAX_STEPS, INITIAL_ACCOUNT_BALANCE]

/-- C1: for every completed call to step, the returned done flag is true iff
net_worth ≤ 0 after the action is executed, and is false whenever
net_worth > 0. -/
theorem step_done_iff_ruin (N : ℕ) (s : EnvState) (a : StockAction) (p : ℚ)
    (s1 : EnvState) (r : ℚ) (d : Bool) (h : step N s a p = .ok (s1, r, d)) :
    (d = true ↔ s1.net_worth ≤ 0) ∧ (0 < s1.net_worth → d = false) := by
  obtain ⟨s0, h0, rfl, -, hd⟩ := step_ok h
  subst hd
  constructor
  · simp
  · intro hpos
    simpa using not_le.mpr hpos

theorem step_done_iff_ruin_witness :
    ((false = true) ↔ (reset 0).net_worth ≤ 0) ∧
      (0 < (reset 0).net_worth → false = false) :=
  step_done_iff_ruin 6 (reset 0) ⟨5/2, 0⟩ 1 (reset 0) 0 false demo_hold_step

/-- C2: for every completed call to step, the returned reward equals the
post-action balance times (current_step / MAX_STEPS), with current_step read
after this step's advance and wrap. -/
theorem step_reward_formula (N : ℕ) (s : EnvState) (a : StockAction) (p : ℚ)
    (s1 : EnvState) (r : ℚ) (d : Bool) (h : step N s a p = .ok (s1, r, d)) :
    r = s1.balance * ((s1.current_step : ℚ) / MAX_STEPS) := by
  obtain ⟨s0, h0, rfl, hr, -⟩ := step_ok h
  simpa using hr

theorem step_reward_formula_witness :
    (0 : ℚ) = (reset 0).balance * (((reset 0).current_step : ℚ) / MAX_STEPS) :=
  step_reward_formula 6 (reset 0) ⟨5/2, 0⟩ 1 (reset 0) 0 false demo_hold_step

/-- C3 (refuted by the source): for every price series and every state,
_next_observation raises TypeError while building its frame — line 80 passes
a Python set literal of numpy arrays to np.array, and numpy arrays are
unhashable — so neither reset nor step ever returns the claimed 6×6
observation matrix. -/
theorem next_observation_raises (df : List PriceRow) (s : EnvState) :
    next_observation df s = .error "TypeError: unhashable type: numpy.ndarray" := rfl

/-- C4: from the reset state (balance 10000), a buy action of type 1/2 with
amount fraction 1 at execution price 100 leaves balance 0, shares_held 100
(the 100 shares bought), and cost_basis 100. -/
theorem buy_all_from_reset : ∀ start_step : ℕ,
    (take_action (reset start_step) ⟨1/2, 1⟩ 100).map
        (fun s1 => (s1.balance, s1.shares_held, s1.cost_basis)) =
      .ok (0, 100, 100) := by
  intro start_step
  have hb : trade_branch (reset start_step) ⟨1/2, 1⟩ 100 =
      .ok { balance := 0, net_worth := 10000, max_net_worth := 10000,
            shares_held := 100, cost_basis := 100, total_shares_sold := 0,
            total_sales_value := 0, current_step := start_step } := by
    rw [trade_branch]
    norm_num [reset, INITIAL_ACCOUNT_BALANCE]
  rw [take_action, hb]
  norm_num [take_action_post, Except.map]

/-- C5: from a state with balance 0, shares_held 100, cost_basis 100 and zero
cumulative counters (net_worth, max_net_worth and current_step arbitrary), a
sell action of type 3/2 with amount fraction 1 at execution price 120 yields
balance 12000, shares_held 0, cost_basis 0, total_shares_sold 100,
total_sales_value 12000. -/
theorem sell_all_example : ∀ (nw mnw : ℚ) (cs : ℕ),
    (take_action
        { balance := 0, net_worth := nw, max_net_worth := mnw, shares_held := 100,
          cost_basis := 100, total_shares_sold := 0, total_sales_value := 0,
          current_step := cs } ⟨3/2, 1⟩ 120).map
        (fun s1 => (s1.balance, s1.shares_held, s1.cost_basis,
          s1.total_shares_sold, s1.total_sales_value)) =
      .ok (12000, 0, 0, 100, 12000) := by
  intro nw mnw cs
  rw [take_action, trade_branch]
  norm_num [take_action_post, Except.map]

/-- C6 counterexample: a buy action with amount fraction 0 from a state
holding no shares (here the reset state) is not a no-op — it raises
ZeroDivisionError computing cost_basis, because shares_held + shares_bought
is 0. -/
theorem buy_zero_amount_no_shares_raises :
    take_action (reset 0) ⟨1/2, 0⟩ 100 =
      .error "ZeroDivisionError: float division by zero" := by
  rw [take_action, trade_branch]
  norm_num [reset, Except.map, INITIAL_ACCOUNT_BALANCE]

/-- C6 (amended): whenever _take_action completes on an action whose amount
fraction is 0 — any action type, so in particular buy and sell — it leaves
balance and shares_held unchanged; the buy case with shares_held = 0 instead
raises ZeroDivisionError. -/
theorem amount_zero_preserves_balance_shares (s s1 : EnvState) (t p : ℚ)
    (h : take_action s ⟨t, 0⟩ p = .ok s1) :
    s1.balance = s.balance ∧ s1.shares_held = s.shares_held := by
  obtain ⟨s0, hb, rfl⟩ := take_action_ok h
  rw [take_action_post_balance, take_action_post_shares]
  simp only [trade_branch] at hb
  split at hb
  · split at hb
    · simp at hb
    · split at hb
      · simp at hb
      · simp only [Except.ok.injEq] at hb
        subst hb
        constructor <;> simp
  · split at hb
    · simp only [Except.ok.injEq] at hb
      subst hb
      constructor <;> simp
    · simp only [Except.ok.injEq] at hb
      subst hb
      exact ⟨rfl, rfl⟩

theorem amount_zero_preserves_balance_shares_witness :
    (reset 0).balance = (reset 0).balance ∧
      (reset 0).shares_held = (reset 0).shares_held :=
  amount_zero_preserves_balance_shares (reset 0) (reset 0) (3/2) 100 (by
    rw [take_action, trade_branch]
    norm_num [take_action_post, reset, Except.map, INITIAL_ACCOUNT_BALANCE])

/-- C7: in every state reachable by reset followed by any sequence of
completed step calls, cost_basis = 0 whenever shares_held = 0 (line 148-149
zeroes cost_basis unconditionally after every action). -/
theorem reachable_cost_basis_zero (N : ℕ) (s : EnvState) (hs : Reachable N s) :
    s.shares_held = 0 → s.cost_basis = 0 := by
  induction hs with
  | init start_step h => intro _; rfl
  | next s s1 a p r d hs h ih =>
      intro h0
      obtain ⟨s0, hta, rfl, -, -⟩ := step_ok h
      obtain ⟨sb, hb, rfl⟩ := take_action_ok hta
      have h0' : sb.shares_held = 0 := h0
      show (if sb.shares_held = 0 then (0 : ℚ) else sb.cost_basis) = 0
      rw [if_pos h0']

theorem reachable_cost_basis_zero_witness : (reset 0).cost_basis = 0 :=
  reachable_cost_basis_zero 6 (reset 0) (Reachable.init 0 (by decide)) rfl

/-- C8: max_net_worth never decreases across a completed step, and every
reachable state has max_net_worth at least INITIAL_ACCOUNT_BALANCE. -/
theorem max_net_worth_mono_and_lower_bound :
    (∀ (N : ℕ) (s : EnvState) (a : StockAction) (p : ℚ) (s1 : EnvState) (r : ℚ)
        (d : Bool), step N s a p = .ok (s1, r, d) →
        s.max_net_worth ≤ s1.max_net_worth) ∧
      (∀ (N : ℕ) (s : EnvState), Reachable N s →
        INITIAL_ACCOUNT_BALANCE ≤ s.max_net_worth) := by
  have mono : ∀ (N : ℕ) (s : EnvState) (a : StockAction) (p : ℚ) (s1 : EnvState)
      (r : ℚ) (d : Bool), step N s a p = .ok (s1, r, d) →
      s.max_net_worth ≤ s1.max_net_worth := by
    intro N s a p s1 r d h
    obtain ⟨s0, hta, rfl, -, -⟩ := step_ok h
    obtain ⟨sb, hb, rfl⟩ := take_action_ok hta
    have h1 := (trade_branch_fields hb).1
    show s.max_net_worth ≤ (take_action_post sb p).max_net_worth
    rw [← h1]
    exact take_action_post_max_mono sb p
  refine ⟨mono, ?_⟩
  intro N s hs
  induction hs with
  | init start_step h => exact le_refl _
  | next s s1 a p r d hs h ih => exact le_trans ih (mono N s a p s1 r d h)

theorem max_net_worth_mono_and_lower_bound_witness :
    INITIAL_ACCOUNT_BALANCE ≤ (reset 0).max_net_worth :=
  max_net_worth_mono_and_lower_bound.2 6 (reset 0) (Reachable.init 0 (by decide))

/-- C9: on a series of length N ≥ 6, reset starts current_step within
[0, N-6] (the range of the randint draw, recorded by Reachable.init); every
completed step advances current_step by one and wraps it to 0 exactly when
the incremented index exceeds N - 6, i.e. when fewer than 6 rows remain
ahead; hence every reachable state keeps current_step ≤ N - 6, so the 6-row
window current_step .. current_step + 5 stays inside the series. -/
theorem current_step_window (N : ℕ) (hN : 6 ≤ N) :
    (∀ s : EnvState, Reachable N s →
        s.current_step ≤ N - 6 ∧ s.current_step + 5 < N) ∧
      (∀ (s : EnvState) (a : StockAction) (p : ℚ) (s1 : EnvState) (r : ℚ)
        (d : Bool), step N s a p = .ok (s1, r, d) →
        s1.current_step =
          if N - 6 < s.current_step + 1 then 0 else s.current_step + 1) := by
  have hstep : ∀ (s : EnvState) (a : StockAction) (p : ℚ) (s1 : EnvState) (r : ℚ)
      (d : Bool), step N s a p = .ok (s1, r, d) →
      s1.current_step =
        if N - 6 < s.current_step + 1 then 0 else s.current_step + 1 := by
    intro s a p s1 r d h
    obtain ⟨s0, hta, rfl, -, -⟩ := step_ok h
    obtain ⟨sb, hb, rfl⟩ := take_action_ok hta
    have hcs : sb.current_step = s.current_step := (trade_branch_fields hb).2.2
    show wrap_step N (take_action_post sb p).current_step = _
    rw [take_action_post_cs, hcs, wrap_step]
  refine ⟨?_, hstep⟩
  intro s hs
  induction hs with
  | init start_step h =>
      refine ⟨h, ?_⟩
      show start_step + 5 < N
      omega
  | next s s1 a p r d hs h ih =>
      rw [hstep s a p s1 r d h]
      split
      · omega
      · rename_i hcond
        omega

theorem current_step_window_witness :
    (reset 0).current_step ≤ 6 - 6 ∧ (reset 0).current_step + 5 < 6 :=
  (current_step_window 6 (by decide)).1 (reset 0) (Reachable.init 0 (by decide))

theorem trade_branch_bounds {s : EnvState} {a : StockAction} {p : ℚ}
    {s1 : EnvState} (ha0 : 0 ≤ a.amount) (ha1 : a.amount ≤ 1) (hp : 0 < p)
    (hb : 0 ≤ s.balance) (hsh : 0 ≤ s.shares_held)
    (h : trade_branch s a p = .ok s1) :
    0 ≤ s1.balance ∧ 0 ≤ s1.shares_held ∧
      s.balance - s.balance * a.amount ≤ s1.balance ∧
      s.shares_held - s.shares_held * a.amount ≤ s1.shares_held := by
  simp only [trade_branch] at h
  split at h
  · split at h
    · simp at h
    · split at h
      · simp at h
      · simp only [Except.ok.injEq] at h
        subst h
        have hpne : p ≠ 0 := ne_of_gt hp
        have hkey : s.balance / p * a.amount * p = s.balance * a.amount := by
          field_simp
        have hnn : 0 ≤ s.balance / p * a.amount :=
          mul_nonneg (div_nonneg hb hp.le) ha0
        refine ⟨?_, ?_, ?_, ?_⟩
        · show 0 ≤ s.balance - s.balance / p * a.amount * p
          rw [hkey]
          nlinarith [mul_nonneg hb (sub_nonneg.mpr ha1)]
        · show 0 ≤ s.shares_held + s.balance / p * a.amount
          linarith
        · show s.balance - s.balance * a.amount ≤
            s.balance - s.balance / p * a.amount * p
          rw [hkey]
        · show s.shares_held - s.shares_held * a.amount ≤
            s.shares_held + s.balance / p * a.amount
          have hsa : 0 ≤ s.shares_held * a.amount := mul_nonneg hsh ha0
          linarith
  · split at h
    · simp only [Except.ok.injEq] at h
      subst h
      have hmul : 0 ≤ s.shares_held * a.amount * p :=
        mul_nonneg (mul_nonneg hsh ha0) hp.le
      refine ⟨?_, ?_, ?_, ?_⟩
      · show 0 ≤ s.balance + s.shares_held * a.amount * p
        linarith
      · show 0 ≤ s.shares_held - s.shares_held * a.amount
        nlinarith [mul_nonneg hsh (sub_nonneg.mpr ha1)]
      · show s.balance - s.balance * a.amount ≤
          s.balance + s.shares_held * a.amount * p
        have hba : 0 ≤ s.balance * a.amount := mul_nonneg hb ha0
        linarith
      · show s.shares_held - s.shares_held * a.amount ≤
          s.shares_held - s.shares_held * a.amount
        exact le_refl _
    · simp only [Except.ok.injEq] at h
      subst h
      have hba : 0 ≤ s.balance * a.amount := mul_nonneg hb ha0
      have hsa : 0 ≤ s.shares_held * a.amount := mul_nonneg hsh ha0
      exact ⟨hb, hsh, by linarith, by linarith⟩

/-- C10: for every action with amount fraction in [0,1] and every strictly
positive execution price, a completed step preserves balance ≥ 0 and
shares_held ≥ 0, a buy spends at most balance × amount and a sell removes at
most shares_held × amount, net_worth ≥ 0 afterwards, and the returned done
flag can be true only when net_worth is exactly 0. -/
theorem step_preserves_nonneg (N : ℕ) (s : EnvState) (a : StockAction) (p : ℚ)
    (s1 : EnvState) (r : ℚ) (d : Bool)
    (ha0 : 0 ≤ a.amount) (ha1 : a.amount ≤ 1) (hp : 0 < p)
    (hbal : 0 ≤ s.balance) (hsh : 0 ≤ s.shares_held)
    (h : step N s a p = .ok (s1, r, d)) :
    (0 ≤ s1.balance ∧ 0 ≤ s1.shares_held) ∧
      s.balance - s.balance * a.amount ≤ s1.balance ∧
      s.shares_held - s.shares_held * a.amount ≤ s1.shares_held ∧
      0 ≤ s1.net_worth ∧ (d = true → s1.net_worth = 0) := by
  obtain ⟨s0, hta, rfl, -, hd⟩ := step_ok h
  obtain ⟨sb, hb, rfl⟩ := take_action_ok hta
  obtain ⟨h1, h2, h3, h4⟩ := trade_branch_bounds ha0 ha1 hp hbal hsh hb
  have hnw : 0 ≤ sb.balance + sb.shares_held * p :=
    add_nonneg h1 (mul_nonneg h2 hp.le)
  refine ⟨⟨h1, h2⟩, h3, h4, hnw, ?_⟩
  intro hdt
  rw [hd] at hdt
  have hle : (take_action_post sb p).net_worth ≤ 0 := of_decide_eq_true hdt
  have h0 : sb.balance + sb.shares_held * p ≤ 0 := hle
  show sb.balance + sb.shares_held * p = 0
  linarith

theorem step_preserves_nonneg_witness :
    ((0 : ℚ) ≤ (reset 0).balance ∧ (0 : ℚ) ≤ (reset 0).shares_held) ∧
      (reset 0).balance - (reset 0).balance * 0 ≤ (reset 0).balance ∧
      (reset 0).shares_held - (reset 0).shares_held * 0 ≤ (reset 0).shares_held ∧
      (0 : ℚ) ≤ (reset 0).net_worth ∧
      (false = true → (reset 0).net_worth = 0) :=
  step_preserves_nonneg 6 (reset 0) ⟨5/2, 0⟩ 1 (reset 0) 0 false (le_refl 0)
    zero_le_one one_pos (by norm_num [reset, INITIAL_ACCOUNT_BALANCE])
    (le_refl 0) demo_hold_step
